/-
Verification of the HP product-labeling pipeline (`app.py`).

The program is a four-stage batch transformation over a product table:
price normalization (`clean_price_column`), seller trust resolution
(`create_seller_trust_level`), category price statistics and deviation
(`create_price_features`), and a heuristic rule-cascade classifier
(`create_heuristic_label`).  Each pandas operation is embedded as a pure
function over lists; machine floats are modeled by `ℚ` (every decimal
threshold and every arithmetic step of the program is exact on the
inputs considered), and missing values (`NaN`) by `Option`.
-/
import Mathlib

namespace HPApp

/-! ### Python string primitives

`str.strip` / `str.lower` / `str.upper` are modeled on ASCII data, which is
the alphabet the program's own constants and rule strings use. -/

/-- Whitespace class of Python's `str.strip` and of the regex `\s` (ASCII part). -/
def isPySpace (c : Char) : Bool :=
  c == ' ' || c == '\t' || c == '\n' || c == '\r' || c == '\x0b' || c == '\x0c'

/-- Python `str.strip` on a character list: drop whitespace from both ends. -/
def pyStripList (l : List Char) : List Char :=
  (l.dropWhile isPySpace).rdropWhile isPySpace

/-- Python `str.strip`. -/
def pyStrip (s : String) : String :=
  String.mk (pyStripList s.data)

/-- Python `str.lower` (ASCII letters). -/
def pyLower (s : String) : String :=
  String.mk (s.data.map Char.toLower)

/-- Python `str.upper` (ASCII letters). -/
def pyUpper (s : String) : String :=
  String.mk (s.data.map Char.toUpper)

/-- Pandas `astype(str)` on one cell: a missing value renders as `"nan"`. -/
def astypeStr : Option String → String
  | none => "nan"
  | some s => s

/-! ### Global constants of the script (ETAPA 1) -/

/-- `SELLER_TRUST_MAP`: trust tier for known sellers (3 high, 2 neutral, 1 suspect). -/
def SELLER_TRUST_MAP : List (String × ℤ) :=
  [("CARREFOUR", 3), ("OBERO INFORMATICA", 3), ("HP OFICIAL", 3),
   ("MAGAZINE LUIZA", 3), ("AMERICANAS", 3), ("KABUM", 3),
   ("INKCOR", 1), ("CASAPRINT SPEED", 1), ("PARK ECOM", 1), ("JRWIMPORTACAO", 1),
   ("TONER SHOPS", 1), ("VANMASTERCOMERCIO", 1), ("ESHOP", 1),
   ("OUTLET PREÇOBAIXO", 1), ("SARAIVA COMERCIO", 1), ("SCOTCH", 1),
   ("SIAD8238404", 2)]

/-- `DEFAULT_SELLER_TRUST`: tier for unmapped sellers. -/
def DEFAULT_SELLER_TRUST : ℤ := 1

/-- `MAX_PLAUSIBLE_PRICE_INDIVIDUAL`: cap for a single item's price. -/
def MAX_PLAUSIBLE_PRICE_INDIVIDUAL : ℚ := 20000.00

/-- `MAX_PLAUSIBLE_PRICE_AVERAGE`: cap for a category's mean price. -/
def MAX_PLAUSIBLE_PRICE_AVERAGE : ℚ := 5000.00

/-! ### Price normalizer (`clean_price_column`, lines 24-47)

The string pipeline of line 33-37 is a sequence of four regex rewrites,
each embedded on the character list:
`R\$` → remove every occurrence of the two characters `R$`;
`\s+` → remove all whitespace;
`\.(?=.*\d{3}(?:,|$))` → remove every period whose right context contains
three consecutive digits immediately followed by a comma or the end of the
string (the lookahead `.*` never has to cross a newline here because all
whitespace was removed by the previous rewrite);
`,` → `.`.  Then `pd.to_numeric(errors='coerce')` parses the result as a
decimal number, `NaN` (i.e. `none`) on failure. -/

/-- Regex `R\$` removal: `re.sub` scans left to right, deleting each
non-overlapping occurrence of the two-character sequence `R$`. -/
def removeRS : List Char → List Char
  | [] => []
  | 'R' :: '$' :: rest => removeRS rest
  | c :: rest => c :: removeRS rest

/-- Regex `\s+` removal: drop every whitespace character. -/
def stripWS (l : List Char) : List Char :=
  l.filter (fun c => !isPySpace c)

/-- Three consecutive digits at the head, immediately followed by a comma or
by the end of the string (the `\d{3}(?:,|$)` core of the lookahead). -/
def check3 : List Char → Bool
  | d1 :: d2 :: d3 :: tail =>
      d1.isDigit && d2.isDigit && d3.isDigit && (tail.isEmpty || tail.head? == some ',')
  | _ => false

/-- The lookahead `.*\d{3}(?:,|$)` holds somewhere in the remaining string. -/
def hasThouMark : List Char → Bool
  | [] => false
  | c :: rest => check3 (c :: rest) || hasThouMark rest

/-- Regex `\.(?=.*\d{3}(?:,|$))` removal: delete each period whose right
context (in the original string, as `re.sub` matches) satisfies the
lookahead. -/
def remThouDots : List Char → List Char
  | [] => []
  | '.' :: rest => if hasThouMark rest then remThouDots rest else '.' :: remThouDots rest
  | c :: rest => c :: remThouDots rest

/-- Regex `,` → `.` replacement. -/
def commaToDot (l : List Char) : List Char :=
  l.map (fun c => if c = ',' then '.' else c)

/-- The full string rewrite of lines 33-37. -/
def transformPrice (s : String) : List Char :=
  commaToDot (remThouDots (stripWS (removeRS s.data)))

/-! ### Decimal parsing (`pd.to_numeric(errors='coerce')`)

Modeled for plain decimal literals (optional sign, digits, at most one
point), the grammar all data of this program lives in; exotic float texts
(exponents, `inf`) are treated as unparseable, i.e. missing. -/

/-- Numeric value of a digit character. -/
def digitVal (c : Char) : ℕ := c.toNat - 48

/-- Value of a digit string, most significant first. -/
def digitsVal (l : List Char) : ℕ :=
  l.foldl (fun a c => 10 * a + digitVal c) 0

/-- Unsigned decimal literal: an optional run of digits, then optionally a
point and a further run of digits, with at least one digit overall.  The
digit prefix is the integer part; whatever follows must be a point and
digits. -/
def parseUnsignedDec (l : List Char) : Option ℚ :=
  if l.dropWhile Char.isDigit = [] then
    if (l.takeWhile Char.isDigit).isEmpty then none else some (digitsVal l)
  else if (l.dropWhile Char.isDigit).head? = some '.' then
    if ((l.dropWhile Char.isDigit).tail).all Char.isDigit &&
        !((l.takeWhile Char.isDigit).isEmpty && ((l.dropWhile Char.isDigit).tail).isEmpty) then
      some ((digitsVal (l.takeWhile Char.isDigit) : ℚ) +
        (digitsVal ((l.dropWhile Char.isDigit).tail) : ℚ) /
          (10 : ℚ) ^ ((l.dropWhile Char.isDigit).tail).length)
    else none
  else none

/-- Signed decimal literal; like Python's float conversion, surrounding
whitespace is tolerated. -/
def parseFloatQ (l : List Char) : Option ℚ :=
  if (pyStripList l).head? = some '+' then parseUnsignedDec (pyStripList l).tail
  else if (pyStripList l).head? = some '-' then
    (parseUnsignedDec (pyStripList l).tail).map (fun q => -q)
  else parseUnsignedDec (pyStripList l)

/-- String-to-number stage of `clean_price_column` for one cell: the regex
rewrites of lines 33-37 followed by the numeric parse of line 39. -/
def cleanPriceStr (s : String) : Option ℚ :=
  parseFloatQ (transformPrice s)

/-- The individual price cap of lines 42-46: a parsed value strictly above
`MAX_PLAUSIBLE_PRICE_INDIVIDUAL` becomes `NaN`. -/
def capIndividual (x : Option ℚ) : Option ℚ :=
  match x with
  | none => none
  | some q => if q > MAX_PLAUSIBLE_PRICE_INDIVIDUAL then none else some q

/-- A pandas price column: either object dtype (string cells, as `read_csv`
produces when any cell fails numeric inference) or an already numeric
column.  Line 32 dispatches on this dtype. -/
inductive PriceCol where
  | obj : List (Option String) → PriceCol
  | num : List (Option ℚ) → PriceCol

/-- `clean_price_column` (lines 24-47): string columns go through
`astype(str)` (line 33, missing cells become `"nan"`), the regex rewrites
and the numeric parse; numeric columns only through `to_numeric` (identity)
— and both through the individual cap. -/
def clean_price_column : PriceCol → List (Option ℚ)
  | PriceCol.obj cells => cells.map (fun c => capIndividual (cleanPriceStr (astypeStr c)))
  | PriceCol.num cells => cells.map capIndividual

/-! ### Seller trust resolver (`create_seller_trust_level`, lines 49-60) -/

/-- `get_trust` (lines 55-57): missing seller gets the default tier; else
trim, upper-case and look the name up in the trust map, default on a miss. -/
def get_trust (trust_map : List (String × ℤ)) (seller : Option String) : ℤ :=
  match seller with
  | none => DEFAULT_SELLER_TRUST
  | some s => (trust_map.lookup (pyUpper (pyStrip s))).getD DEFAULT_SELLER_TRUST

/-- `create_seller_trust_level` (line 59): apply `get_trust` row-wise. -/
def create_seller_trust_level (vendedor : List (Option String)) : List ℤ :=
  vendedor.map (get_trust SELLER_TRUST_MAP)

/-! ### Category statistics and deviation (`create_price_features`, lines 62-122)

The category column is normalized in place (lines 76-77); rows are grouped
by the normalized category over the rows with a present price (line 88's
`dropna` also lists the category column, but after `astype(str)` that column
has no missing values, so only the price filter acts); the per-category mean
(line 92) is merged back per row (line 101) and capped (lines 107-110); the
deviation is computed and its non-finite values replaced by 0 (lines
120-121).  A pre-existing `preco_medio_categoria` column is deleted at line
95 before any of this, so it is no input to the computation. -/

/-- The sentinel put in place of blank or invalid category text (line 77). -/
def CATEGORIA_SENTINEL : String := "CATEGORIA_AUSENTE_OU_INVALIDA"

/-- The `isin` list of line 77. -/
def badCats : List String := ["", "nan", "None", "NAN", "NONE"]

/-- Lines 76-77: `astype(str).str.strip()`, then values in `badCats` become
the sentinel. -/
def normCat (c : Option String) : String :=
  if pyStrip (astypeStr c) ∈ badCats then CATEGORIA_SENTINEL else pyStrip (astypeStr c)

/-- Arithmetic mean of a list, `none` when the list is empty (a `groupby`
over no rows yields no group). -/
def listMean (l : List ℚ) : Option ℚ :=
  if l.isEmpty then none else some (l.sum / l.length)

/-- Lines 88-103 for one row: the mean the left merge attaches to a row of
category `c` — drop rows with missing price, keep the rows of `c`, average
their prices; `none` when no row of `c` has a price. -/
def groupMean (pairs : List (Option ℚ × String)) (c : String) : Option ℚ :=
  listMean (((pairs.filter (fun r => r.1.isSome)).filter (fun r => r.2 == c)).filterMap
    Prod.fst)

/-- Lines 107-110: a computed mean outside (0, 5000] becomes `NaN`. -/
def capMean (x : Option ℚ) : Option ℚ :=
  match x with
  | none => none
  | some m => if m > MAX_PLAUSIBLE_PRICE_AVERAGE ∨ m ≤ 0 then none else some m

/-- Lines 120-121: `(price - mean) / mean` for one row; pandas produces
`NaN` when an operand is missing and `NaN`/`±inf` when the mean is zero, and
line 121 replaces all of those by 0. -/
def devOf (p m : Option ℚ) : ℚ :=
  match p, m with
  | some p, some m => if m = 0 then 0 else (p - m) / m
  | _, _ => 0

/-- The normalized category column (lines 76-77). -/
def catsOf (tipo : List (Option String)) : List String :=
  tipo.map normCat

/-- The capped per-row category mean column (lines 88-114). -/
def catAvgOf (preco : List (Option ℚ)) (tipo : List (Option String)) : List (Option ℚ) :=
  (catsOf tipo).map (fun c => capMean (groupMean (preco.zip (catsOf tipo)) c))

/-- The deviation column (lines 120-121). -/
def devColOf (preco : List (Option ℚ)) (tipo : List (Option String)) : List ℚ :=
  (preco.zip (catAvgOf preco tipo)).map (fun pm => devOf pm.1 pm.2)

/-- The three columns `create_price_features` adds or rewrites. -/
structure PriceFeatures where
  cats : List String
  catAvg : List (Option ℚ)
  devCol : List ℚ

/-- `create_price_features` (lines 62-122) on a numeric price column and a
present category column. -/
def create_price_features (preco : List (Option ℚ)) (tipo : List (Option String)) :
    PriceFeatures :=
  { cats := catsOf tipo
    catAvg := catAvgOf preco tipo
    devCol := devColOf preco tipo }

/-! ### Heuristic classifier (`create_heuristic_label`, lines 124-196)

`apply_rules` (lines 140-191) reads per row: the normalized originality
claim, the deviation column (`NaN` replaced by 0, line 142), the seller
trust level, and the quality score (`NaN` treated as neutral 3, line 144,
but rule 154 additionally tests presence with `pd.notna`). -/

/-- Claim values treated as an explicit assertion of being original (line 156 etc.). -/
def claimOriginals : List String := ["original", "verdadeiro", "genuíno"]

/-- Claim values treated as an explicit assertion of NOT being original (line 148). -/
def claimFakes : List String := ["falso", "não original", "pirata", "suspeito", "alternativo"]

/-- Claim values treated as unknown / unspecified originality (line 181). -/
def claimUnknowns : List String := ["desconhecido", "nan", "na", "categoria_ausente_ou_invalida"]

/-- The rule cascade of `apply_rules` (lines 140-191), translated branch by
branch.  Python's early `return`s become a single if-chain; the
self-contained three-way `if/elif/else` blocks under trust 3 stay nested.
A `trust == 1` (resp. 2) block whose inner conditions all fail falls
through to the later levels, exactly as in the source.  `devIn.getD 0` is
line 142 (`NaN` deviation read as 0) and `notaIn.getD 3` is line 144 (the
neutral default for a missing quality score); line 154 also checks
`pd.notna`, i.e. `notaIn.isSome`. -/
def apply_rules (claimNorm : String) (devIn : Option ℚ) (trust : ℤ) (notaIn : Option ℚ) :
    String :=
  if claimNorm = "compatível" then "compativel"
  else if claimNorm ∈ claimFakes then "nao_original_declarado"
  else if trust = 1 ∧ devIn.getD 0 < -0.40 then "pirata_provavel_preco_vendedor_ruim"
  else if trust = 1 ∧ notaIn.isSome ∧ notaIn.getD 3 < 2.5 then
    "pirata_provavel_nota_vendedor_ruim"
  else if trust = 1 ∧ claimNorm ∈ claimOriginals ∧ devIn.getD 0 ≥ -0.20 then
    "avaliar_manual_alegado_original_vendedor_suspeito"
  else if trust = 2 ∧ devIn.getD 0 < -0.60 then
    "pirata_provavel_preco_muito_baixo_vendedor_neutro"
  else if trust = 2 ∧ claimNorm ∈ claimOriginals ∧ devIn.getD 0 < -0.30 then
    "avaliar_manual_alegado_original_vendedor_neutro_preco_baixo"
  else if claimNorm ∈ claimOriginals ∧ trust = 3 then
    if devIn.getD 0 ≥ -0.30 then "original"
    else if devIn.getD 0 < -0.30 ∧ devIn.getD 0 ≥ -0.50 then
      "avaliar_manual_original_preco_baixo_vendedor_confiavel"
    else "avaliar_manual_original_preco_MUITO_baixo_vendedor_confiavel"
  else if claimNorm ∈ claimOriginals ∧ trust = 2 ∧ devIn.getD 0 ≥ -0.20 then
    "avaliar_manual_alegado_original_vendedor_neutro"
  else if claimNorm ∈ claimOriginals ∧ trust = 1 then
    "avaliar_manual_alegado_original_vendedor_suspeito"
  else if claimNorm ∈ claimUnknowns ∧ trust = 3 then
    if devIn.getD 0 ≥ -0.30 then "original_provavel_orig_desconhecida_vendedor_confiavel"
    else "avaliar_manual_orig_desconhecida_vendedor_confiavel_preco_baixo"
  else if claimNorm ∈ claimUnknowns ∧ trust = 2 then
    "avaliar_manual_orig_desconhecida_vendedor_neutro"
  else if claimNorm ∈ claimUnknowns ∧ trust = 1 then
    if devIn.getD 0 < -0.30 then "pirata_provavel_orig_desconhecida_vendedor_suspeito_preco_baixo"
    else "avaliar_manual_orig_desconhecida_vendedor_suspeito"
  else "avaliar_manual_geral_sem_classificacao_clara"

/-- Normalization of the originality claim (line 130):
`astype(str).str.strip().str.lower()`; a missing cell becomes `"nan"`. -/
def normClaim (o : Option String) : String :=
  pyLower (pyStrip (astypeStr o))

/-- Every label string `apply_rules` can return. -/
def allLabels : List String :=
  ["compativel", "nao_original_declarado",
   "pirata_provavel_preco_vendedor_ruim", "pirata_provavel_nota_vendedor_ruim",
   "avaliar_manual_alegado_original_vendedor_suspeito",
   "pirata_provavel_preco_muito_baixo_vendedor_neutro",
   "avaliar_manual_alegado_original_vendedor_neutro_preco_baixo",
   "original", "avaliar_manual_original_preco_baixo_vendedor_confiavel",
   "avaliar_manual_original_preco_MUITO_baixo_vendedor_confiavel",
   "avaliar_manual_alegado_original_vendedor_neutro",
   "original_provavel_orig_desconhecida_vendedor_confiavel",
   "avaliar_manual_orig_desconhecida_vendedor_confiavel_preco_baixo",
   "avaliar_manual_orig_desconhecida_vendedor_neutro",
   "pirata_provavel_orig_desconhecida_vendedor_suspeito_preco_baixo",
   "avaliar_manual_orig_desconhecida_vendedor_suspeito",
   "avaliar_manual_geral_sem_classificacao_clara"]

/-- An if-then-else of two members of a list is a member of the list. -/
theorem mem_ite_of_mem {α : Type} {c : Prop} [Decidable c] {a b : α} {L : List α}
    (ha : a ∈ L) (hb : b ∈ L) : (if c then a else b) ∈ L := by
  split
  exact ha
  exact hb

/-- C1: a record claiming originality (`"original"`, `"verdadeiro"` or
`"genuíno"`) sold by a trust-1 seller with deviation strictly below −0.40
is labeled `"pirata_provavel_preco_vendedor_ruim"`: the low-price branch of
the trust-1 block (line 153) fires before the claimed-original safety net
(line 178), whatever the quality score. -/
theorem C1_trust1_low_price_beats_claimed_original
    (claimNorm : String) (hc : claimNorm ∈ claimOriginals)
    (d : ℚ) (hd : d < -0.40) (notaIn : Option ℚ) :
    apply_rules claimNorm (some d) 1 notaIn = "pirata_provavel_preco_vendedor_ruim" := by
  simp only [claimOriginals, List.mem_cons, List.not_mem_nil, or_false] at hc
  rcases hc with rfl | rfl | rfl <;>
  · delta apply_rules
    rw [if_neg (by decide), if_neg (by decide), if_pos ⟨rfl, by simpa using hd⟩]

/-- C1 witness: scenario B of the spec, seller "INKCOR" (trust 1), claim
"original", deviation −0.50. -/
theorem C1_witness :
    apply_rules "original" (some (-0.50)) 1 (some 4) = "pirata_provavel_preco_vendedor_ruim" :=
  C1_trust1_low_price_beats_claimed_original "original" (by decide) (-0.50) (by norm_num)
    (some 4)

/-- C2: the classifier is total and deterministic.  For every combination of
present/absent originality claim, deviation, quality score, and any integer
trust value, `apply_rules` (a function, hence deterministic, with no failure
path) returns exactly one of the labels of the cascade, the generic fallback
included. -/
theorem C2_classifier_total
    (orig : Option String) (devIn : Option ℚ) (trust : ℤ) (notaIn : Option ℚ) :
    apply_rules (normClaim orig) devIn trust notaIn ∈ allLabels := by
  delta apply_rules
  repeat
    first
    | apply mem_ite_of_mem
    | decide

/-- C10: a record claiming originality under a trust-2 seller whose deviation
lies in the band −0.30 ≤ d < −0.20 matches no rule of the cascade (the trust-2
low-price rule needs d < −0.30, the trust-2 claimed-original rule needs
d ≥ −0.20) and falls to the generic fallback label. -/
theorem C10_trust2_band_falls_to_generic
    (claimNorm : String) (hc : claimNorm ∈ claimOriginals)
    (d : ℚ) (hlo : -0.30 ≤ d) (hhi : d < -0.20) (notaIn : Option ℚ) :
    apply_rules claimNorm (some d) 2 notaIn = "avaliar_manual_geral_sem_classificacao_clara" := by
  simp only [claimOriginals, List.mem_cons, List.not_mem_nil, or_false] at hc
  rcases hc with rfl | rfl | rfl <;>
  · delta apply_rules
    rw [if_neg (by decide), if_neg (by decide),
      if_neg (by rintro ⟨h, -⟩; exact absurd h (by decide)),
      if_neg (by rintro ⟨h, -⟩; exact absurd h (by decide)),
      if_neg (by rintro ⟨h, -⟩; exact absurd h (by decide)),
      if_neg (by rintro ⟨-, h⟩; simp only [Option.getD_some] at h; linarith),
      if_neg (by rintro ⟨-, -, h⟩; simp only [Option.getD_some] at h; linarith),
      if_neg (by rintro ⟨-, h⟩; exact absurd h (by decide)),
      if_neg (by rintro ⟨-, -, h⟩; simp only [Option.getD_some] at h; linarith),
      if_neg (by rintro ⟨-, h⟩; exact absurd h (by decide)),
      if_neg (by rintro ⟨h, -⟩; exact absurd h (by decide)),
      if_neg (by rintro ⟨h, -⟩; exact absurd h (by decide)),
      if_neg (by rintro ⟨h, -⟩; exact absurd h (by decide))]

/-- C10 witness: claim "original", trust 2, deviation −0.25 gets the generic
fallback label. -/
theorem C10_witness :
    apply_rules "original" (some (-0.25)) 2 none =
      "avaliar_manual_geral_sem_classificacao_clara" :=
  C10_trust2_band_falls_to_generic "original" (by decide) (-0.25) (by norm_num) (by norm_num)
    none

/-- A value surviving `capIndividual` is at most the individual cap. -/
theorem capIndividual_le {x : Option ℚ} {q : ℚ}
    (h : capIndividual x = some q) : q ≤ MAX_PLAUSIBLE_PRICE_INDIVIDUAL := by
  rcases x with _ | p
  · simp [capIndividual] at h
  · by_cases hp : p > MAX_PLAUSIBLE_PRICE_INDIVIDUAL
    · simp [capIndividual, hp] at h
    · simp [capIndividual, hp] at h
      subst h
      exact le_of_not_lt hp

/-- C5: after `clean_price_column`, every stored price is either missing or
at most 20000.00, and any parsed price strictly above the individual cap is
forced to missing (lines 42-46). -/
theorem C5_individual_price_cap (col : PriceCol) :
    (∀ x ∈ clean_price_column col, ∀ q : ℚ, x = some q → q ≤ MAX_PLAUSIBLE_PRICE_INDIVIDUAL) ∧
    (∀ q : ℚ, q > MAX_PLAUSIBLE_PRICE_INDIVIDUAL → capIndividual (some q) = none) := by
  constructor
  · intro x hx q hxq
    subst hxq
    rcases col with cells | cells <;>
    · simp only [clean_price_column, List.mem_map] at hx
      obtain ⟨c, -, hc⟩ := hx
      exact capIndividual_le hc
  · intro q hq
    simp [capIndividual, hq]

/-- C5 witness: a parsed price of 25000 is capped to missing. -/
theorem C5_witness : capIndividual (some 25000) = none :=
  (C5_individual_price_cap (PriceCol.num [])).2 25000 (by norm_num [MAX_PLAUSIBLE_PRICE_INDIVIDUAL])

/-! ### Character-class facts used by the price-normalization proofs -/

theorem ne_of_isDigit {c x : Char} (h : c.isDigit = true) (hx : x.isDigit = false) :
    c ≠ x := by
  intro h'
  rw [h'] at h
  rw [h] at hx
  cases hx

theorem isPySpace_false_of_isDigit {c : Char} (h : c.isDigit = true) :
    isPySpace c = false := by
  by_contra hc
  rw [Bool.not_eq_false, isPySpace] at hc
  simp only [Bool.or_eq_true, beq_iff_eq] at hc
  rcases hc with ((((rfl | rfl) | rfl) | rfl) | rfl) | rfl <;> cases h

/-! ### Reduction lemmas for the regex-rewrite embeddings -/

theorem removeRS_cons_of_ne {c : Char} (hc : c ≠ 'R') (t : List Char) :
    removeRS (c :: t) = c :: removeRS t := by
  cases t <;> simp [removeRS, hc]

theorem removeRS_eq_self {l : List Char} (h : ∀ c ∈ l, c ≠ 'R') : removeRS l = l := by
  induction l with
  | nil => rfl
  | cons c t ih =>
      rw [removeRS_cons_of_ne (h c (List.mem_cons_self c t)) t,
        ih (fun x hx => h x (List.mem_cons_of_mem c hx))]

theorem remThouDots_cons_of_ne {c : Char} (hc : c ≠ '.') (t : List Char) :
    remThouDots (c :: t) = c :: remThouDots t := by
  simp [remThouDots, hc]

theorem remThouDots_append_of_no_dot {a : List Char} (h : ∀ c ∈ a, c ≠ '.')
    (l : List Char) : remThouDots (a ++ l) = a ++ remThouDots l := by
  induction a with
  | nil => rfl
  | cons c t ih =>
      rw [List.cons_append, remThouDots_cons_of_ne (h c (List.mem_cons_self c t)),
        ih (fun x hx => h x (List.mem_cons_of_mem c hx)), List.cons_append]

theorem remThouDots_eq_self {l : List Char} (h : ∀ c ∈ l, c ≠ '.') :
    remThouDots l = l := by
  have h2 := remThouDots_append_of_no_dot h []
  have h3 : remThouDots [] = [] := rfl
  rw [List.append_nil, h3, List.append_nil] at h2
  exact h2

theorem remThouDots_dot_of_mark {t : List Char} (h : hasThouMark t = true) :
    remThouDots ('.' :: t) = remThouDots t := by
  simp [remThouDots, h]

theorem hasThouMark_of_check3 {l : List Char} (h : check3 l = true) :
    hasThouMark l = true := by
  cases l with
  | nil => cases h
  | cons c t => simp [hasThouMark, h]

theorem pyStripList_eq_self {l : List Char} (h : ∀ c ∈ l, isPySpace c = false) :
    pyStripList l = l := by
  have h1 : l.dropWhile isPySpace = l := by
    cases l with
    | nil => rfl
    | cons c t => exact List.dropWhile_cons_of_neg (by simp [h c (List.mem_cons_self c t)])
  rw [pyStripList, h1]
  rcases eq_or_ne l [] with rfl | hl
  · rfl
  · exact List.rdropWhile_eq_self_iff.mpr
      (fun hne => by simp [h _ (List.getLast_mem hne)])

theorem dropWhile_append_of_all {p : Char → Bool} {a : List Char}
    (h : ∀ c ∈ a, p c = true) (l : List Char) :
    List.dropWhile p (a ++ l) = List.dropWhile p l := by
  induction a with
  | nil => rfl
  | cons c t ih =>
      rw [List.cons_append, List.dropWhile_cons_of_pos (h c (List.mem_cons_self c t)),
        ih (fun x hx => h x (List.mem_cons_of_mem c hx))]

theorem takeWhile_append_of_all {p : Char → Bool} {a : List Char}
    (h : ∀ c ∈ a, p c = true) (l : List Char) :
    List.takeWhile p (a ++ l) = a ++ List.takeWhile p l := by
  induction a with
  | nil => rfl
  | cons c t ih =>
      rw [List.cons_append, List.takeWhile_cons_of_pos (h c (List.mem_cons_self c t)),
        ih (fun x hx => h x (List.mem_cons_of_mem c hx)), List.cons_append]

/-! ### The grammar of claim C4: currency mark, whitespace, integer digits,
an optional thousands period (exactly three digits before the comma or the
end), an optional comma decimal part -/

/-- Raw text of a price in the Brazilian format the spec describes. -/
structure PriceText where
  currency : Bool
  ws : List Char
  intPart : List Char
  thou : Option (Char × Char × Char)
  decPart : Option (List Char)

/-- The characters the thousands group contributes to the raw text. -/
def thouRender : Option (Char × Char × Char) → List Char
  | none => []
  | some x => ['.', x.1, x.2.1, x.2.2]

/-- The digits of the thousands group. -/
def thouDigits : Option (Char × Char × Char) → List Char
  | none => []
  | some x => [x.1, x.2.1, x.2.2]

/-- The characters the decimal part contributes to the raw text. -/
def decRender : Option (List Char) → List Char
  | none => []
  | some d => ',' :: d

/-- The decimal part after the comma has become a point. -/
def decAfter : Option (List Char) → List Char
  | none => []
  | some d => '.' :: d

/-- The raw text of a `PriceText`, e.g. `"R$ 1.234,56"`. -/
def PriceText.render (p : PriceText) : String :=
  String.mk ((if p.currency then ['R', '$'] else []) ++
    p.ws ++ p.intPart ++ thouRender p.thou ++ decRender p.decPart)

/-- Well-formedness: the whitespace run is whitespace, the integer part is a
nonempty digit string, the thousands group is three digits, the decimal part
(when present) is a nonempty digit string. -/
def PriceText.wf (p : PriceText) : Prop :=
  (∀ c ∈ p.ws, isPySpace c = true) ∧
  p.intPart ≠ [] ∧ (∀ c ∈ p.intPart, c.isDigit = true) ∧
  (∀ c ∈ thouDigits p.thou, c.isDigit = true) ∧
  (∀ d ∈ p.decPart, d ≠ [] ∧ ∀ c ∈ d, c.isDigit = true)

/-- The mathematically intended value of the raw text: the integer digits
with the thousands group appended, plus the decimal fraction. -/
def PriceText.value (p : PriceText) : ℚ :=
  (digitsVal (p.intPart ++ thouDigits p.thou) : ℚ) +
  (match p.decPart with
   | none => 0
   | some d => (digitsVal d : ℚ) / (10 : ℚ) ^ d.length)

theorem transformPrice_parts (cur : Bool) (ws ip : List Char)
    (th : Option (Char × Char × Char)) (dp : Option (List Char))
    (hws : ∀ c ∈ ws, isPySpace c = true)
    (hintd : ∀ c ∈ ip, c.isDigit = true)
    (hthou : ∀ c ∈ thouDigits th, c.isDigit = true)
    (hdec : ∀ d ∈ dp, d ≠ [] ∧ ∀ c ∈ d, c.isDigit = true) :
    transformPrice (String.mk ((if cur then ['R', '$'] else []) ++
        ws ++ ip ++ thouRender th ++ decRender dp)) =
      (ip ++ thouDigits th) ++ decAfter dp := by
  have hdecNoDot : ∀ c ∈ decRender dp, c ≠ '.' := by
    rcases dp with - | d
    · intro c hc; cases hc
    · intro c hc
      rcases List.mem_cons.mp hc with rfl | hcd
      · decide
      · exact ne_of_isDigit ((hdec d rfl).2 c hcd) (by decide)
  have hdecNoSpace : ∀ c ∈ decRender dp, isPySpace c = false := by
    rcases dp with - | d
    · intro c hc; cases hc
    · intro c hc
      rcases List.mem_cons.mp hc with rfl | hcd
      · decide
      · exact isPySpace_false_of_isDigit ((hdec d rfl).2 c hcd)
  have hdecNoR : ∀ c ∈ decRender dp, c ≠ 'R' := by
    rcases dp with - | d
    · intro c hc; cases hc
    · intro c hc
      rcases List.mem_cons.mp hc with rfl | hcd
      · decide
      · exact ne_of_isDigit ((hdec d rfl).2 c hcd) (by decide)
  have hthouNoR : ∀ c ∈ thouRender th, c ≠ 'R' := by
    rcases th with - | x
    · intro c hc; cases hc
    · intro c hc
      rcases List.mem_cons.mp hc with rfl | hcd
      · decide
      · exact ne_of_isDigit (hthou c hcd) (by decide)
  have hthouNoSpace : ∀ c ∈ thouRender th, isPySpace c = false := by
    rcases th with - | x
    · intro c hc; cases hc
    · intro c hc
      rcases List.mem_cons.mp hc with rfl | hcd
      · decide
      · exact isPySpace_false_of_isDigit (hthou c hcd)
  -- after removing the currency marker nothing else can spell an `R$`
  have hrest : ∀ c ∈ ws ++ ip ++ thouRender th ++ decRender dp, c ≠ 'R' := by
    simp only [List.forall_mem_append]
    exact ⟨⟨⟨fun c hc h => by rw [h] at hc; exact absurd (hws _ hc) (by decide),
      fun c hc => ne_of_isDigit (hintd c hc) (by decide)⟩, hthouNoR⟩, hdecNoR⟩
  have h1 : removeRS ((if cur then ['R', '$'] else []) ++
      ws ++ ip ++ thouRender th ++ decRender dp) =
      ws ++ ip ++ thouRender th ++ decRender dp := by
    rcases cur with - | -
    · exact removeRS_eq_self hrest
    · show removeRS ('R' :: '$' :: (ws ++ ip ++ thouRender th ++ decRender dp)) = _
      rw [show ∀ l, removeRS ('R' :: '$' :: l) = removeRS l from fun l => rfl]
      exact removeRS_eq_self hrest
  have h2 : stripWS (ws ++ ip ++ thouRender th ++ decRender dp) =
      ip ++ thouRender th ++ decRender dp := by
    simp only [stripWS, List.filter_append]
    rw [List.filter_eq_nil_iff.mpr (fun c hc => by simp [hws c hc]),
      List.filter_eq_self.mpr (fun c hc => by simp [isPySpace_false_of_isDigit (hintd c hc)]),
      List.filter_eq_self.mpr (fun c hc => by simp [hthouNoSpace c hc]),
      List.filter_eq_self.mpr (fun c hc => by simp [hdecNoSpace c hc]),
      List.nil_append]
  have h3 : remThouDots (ip ++ thouRender th ++ decRender dp) =
      ip ++ thouDigits th ++ decRender dp := by
    rcases th with - | x
    · show remThouDots (ip ++ [] ++ decRender dp) = _
      rw [List.append_nil, remThouDots_eq_self, thouDigits, List.append_nil]
      rw [List.forall_mem_append]
      exact ⟨fun c hc => ne_of_isDigit (hintd c hc) (by decide), hdecNoDot⟩
    · have hx1 : x.1.isDigit = true := hthou x.1 (by simp [thouDigits])
      have hx2 : x.2.1.isDigit = true := hthou x.2.1 (by simp [thouDigits])
      have hx3 : x.2.2.isDigit = true := hthou x.2.2 (by simp [thouDigits])
      have hmark : hasThouMark (x.1 :: x.2.1 :: x.2.2 :: decRender dp) = true := by
        apply hasThouMark_of_check3
        rcases dp with - | d <;>
          simp [check3, decRender, hx1, hx2, hx3]
      show remThouDots (ip ++ ('.' :: x.1 :: x.2.1 :: x.2.2 :: []) ++ decRender dp) = _
      rw [List.append_assoc, remThouDots_append_of_no_dot
        (fun c hc => ne_of_isDigit (hintd c hc) (by decide))]
      show ip ++ remThouDots ('.' :: (x.1 :: x.2.1 :: x.2.2 :: decRender dp)) = _
      rw [remThouDots_dot_of_mark hmark, remThouDots_eq_self, thouDigits]
      · simp
      · intro c hc
        rcases List.mem_cons.mp hc with rfl | hc
        · exact ne_of_isDigit hx1 (by decide)
        rcases List.mem_cons.mp hc with rfl | hc
        · exact ne_of_isDigit hx2 (by decide)
        rcases List.mem_cons.mp hc with rfl | hc
        · exact ne_of_isDigit hx3 (by decide)
        · exact hdecNoDot c hc
  have h4 : commaToDot (ip ++ thouDigits th ++ decRender dp) =
      (ip ++ thouDigits th) ++ decAfter dp := by
    simp only [commaToDot, List.map_append]
    have hid : ∀ m : List Char, (∀ c ∈ m, c.isDigit = true) →
        m.map (fun c => if c = ',' then '.' else c) = m := by
      intro m hm
      calc m.map (fun c => if c = ',' then '.' else c) = m.map id :=
            List.map_congr_left
              (fun c hc => if_neg (ne_of_isDigit (hm c hc) (by decide)))
        _ = m := List.map_id m
    rw [hid _ hintd, hid _ (fun c hc => hthou c hc)]
    rcases dp with - | d
    · rfl
    · show _ ++ _ ++ List.map _ (',' :: d) = _
      rw [List.map_cons, if_pos rfl, hid d (fun c hc => (hdec d rfl).2 c hc)]
      rfl
  show commaToDot (remThouDots (stripWS (removeRS ((if cur then ['R', '$'] else []) ++
    ws ++ ip ++ thouRender th ++ decRender dp)))) = _
  rw [h1, h2, h3, h4]

/-! ### Parsing lemmas for well-formed price texts -/

theorem parseUnsignedDec_int {I : List Char} (hI : I ≠ [])
    (hId : ∀ c ∈ I, c.isDigit = true) :
    parseUnsignedDec I = some (digitsVal I) := by
  have hdw : I.dropWhile Char.isDigit = [] := List.dropWhile_eq_nil_iff.mpr hId
  have htw : I.takeWhile Char.isDigit = I := List.takeWhile_eq_self_iff.mpr hId
  obtain ⟨c, t, rfl⟩ := List.exists_cons_of_ne_nil hI
  simp only [parseUnsignedDec, hdw, htw]
  simp

theorem parseUnsignedDec_dec {I d : List Char} (hI : I ≠ [])
    (hId : ∀ c ∈ I, c.isDigit = true) (hd : ∀ c ∈ d, c.isDigit = true) :
    parseUnsignedDec (I ++ '.' :: d) =
      some ((digitsVal I : ℚ) + (digitsVal d : ℚ) / (10 : ℚ) ^ d.length) := by
  have hdw : (I ++ '.' :: d).dropWhile Char.isDigit = '.' :: d := by
    rw [dropWhile_append_of_all hId]
    exact List.dropWhile_cons_of_neg (by decide)
  have htw : (I ++ '.' :: d).takeWhile Char.isDigit = I := by
    rw [takeWhile_append_of_all hId, List.takeWhile_cons_of_neg (by decide), List.append_nil]
  obtain ⟨c, t, rfl⟩ := List.exists_cons_of_ne_nil hI
  simp only [parseUnsignedDec, hdw, htw]
  simp [List.all_eq_true.mpr hd]

theorem parseFloatQ_cons_digit {c : Char} (hc : c.isDigit = true) {t : List Char}
    (hsp : ∀ x ∈ c :: t, isPySpace x = false) :
    parseFloatQ (c :: t) = parseUnsignedDec (c :: t) := by
  have hstrip : pyStripList (c :: t) = c :: t := pyStripList_eq_self hsp
  have h1 : ¬((c :: t).head? = some '+') := by
    simp only [List.head?_cons, Option.some.injEq]
    exact ne_of_isDigit hc (by decide)
  have h2 : ¬((c :: t).head? = some '-') := by
    simp only [List.head?_cons, Option.some.injEq]
    exact ne_of_isDigit hc (by decide)
  simp only [parseFloatQ, hstrip]
  rw [if_neg h1, if_neg h2]

/-- C4: every raw price text of the claim's shape — optional `R$` prefix,
optional whitespace, nonempty integer digits, an optional thousands period
carrying exactly three digits before the comma or the end, and an optional
comma decimal part — is normalized by the string rewrites and the numeric
parse of `clean_price_column` (lines 32-39) to its mathematically intended
decimal value; unparseable strings yield `none` by construction of
`cleanPriceStr` (never an exception). -/
theorem C4_price_normalization (p : PriceText) (hp : p.wf) :
    cleanPriceStr (PriceText.render p) = some (PriceText.value p) := by
  obtain ⟨cur, ws, ip, th, dp⟩ := p
  obtain ⟨hws, hIne, hId, hth, hdp⟩ := hp
  dsimp only at hws hIne hId hth hdp
  have htrans := transformPrice_parts cur ws ip th dp hws hId hth hdp
  show parseFloatQ (transformPrice (PriceText.render ⟨cur, ws, ip, th, dp⟩)) = _
  rw [show PriceText.render ⟨cur, ws, ip, th, dp⟩ = String.mk
    ((if cur then ['R', '$'] else []) ++ ws ++ ip ++ thouRender th ++ decRender dp) from rfl,
    htrans]
  have hIdig : ∀ c ∈ ip ++ thouDigits th, c.isDigit = true :=
    List.forall_mem_append.mpr ⟨hId, hth⟩
  have hXsp : ∀ x ∈ (ip ++ thouDigits th) ++ decAfter dp, isPySpace x = false := by
    intro x hx
    rcases List.mem_append.mp hx with hx | hx
    · exact isPySpace_false_of_isDigit (hIdig x hx)
    · rcases dp with - | d
      · cases hx
      · rcases List.mem_cons.mp hx with rfl | hcd
        · decide
        · exact isPySpace_false_of_isDigit ((hdp d rfl).2 x hcd)
  obtain ⟨i0, ip', rfl⟩ := List.exists_cons_of_ne_nil hIne
  have hX : ((i0 :: ip') ++ thouDigits th) ++ decAfter dp =
      i0 :: ((ip' ++ thouDigits th) ++ decAfter dp) := by simp
  rw [hX] at hXsp ⊢
  rw [parseFloatQ_cons_digit (hId i0 (List.mem_cons_self i0 ip')) hXsp, ← hX]
  rcases dp with - | d
  · rw [show decAfter none = ([] : List Char) from rfl, List.append_nil,
      parseUnsignedDec_int (by simp) hIdig]
    show _ = some (PriceText.value ⟨cur, ws, i0 :: ip', th, none⟩)
    simp [PriceText.value]
  · rw [show decAfter (some d) = '.' :: d from rfl,
      parseUnsignedDec_dec (by simp) hIdig (fun c hc => (hdp d rfl).2 c hc)]
    show _ = some (PriceText.value ⟨cur, ws, i0 :: ip', th, some d⟩)
    simp [PriceText.value]

/-- C4 witness: `"R$ 1.234,56"` normalizes to 1234.56 (and, directly from
the rewrite rules, `"89,90"` to 89.90). -/
theorem C4_witness : cleanPriceStr "R$ 1.234,56" = some 1234.56 := by
  have h := C4_price_normalization ⟨true, [' '], ['1'], some ('2', '3', '4'), some ['5', '6']⟩
    ⟨by decide, by decide, by decide, by decide, by decide⟩
  rw [show PriceText.render ⟨true, [' '], ['1'], some ('2', '3', '4'), some ['5', '6']⟩ =
    "R$ 1.234,56" from rfl] at h
  rw [h]
  have hv : PriceText.value ⟨true, [' '], ['1'], some ('2', '3', '4'), some ['5', '6']⟩ =
      (1234 : ℚ) + (56 : ℚ) / (10 : ℚ) ^ (2 : ℕ) := by
    simp only [PriceText.value, thouDigits, digitsVal, digitVal, List.foldl]
    norm_num [show '1'.toNat = 49 from rfl, show '2'.toNat = 50 from rfl,
      show '3'.toNat = 51 from rfl, show '4'.toNat = 52 from rfl,
      show '5'.toNat = 53 from rfl, show '6'.toNat = 54 from rfl]
  rw [hv]
  norm_num

/-! ### Category-statistics lemmas (claims C3, C6, C7, C8) -/

theorem devOf_none_right (x : Option ℚ) : devOf x none = 0 := by
  rcases x with - | q <;> rfl

theorem devOf_none_left (y : Option ℚ) : devOf none y = 0 := by
  rcases y with - | q <;> rfl

theorem getElem?_zip {α β : Type} (l : List α) (l' : List β) (i : ℕ) :
    (l.zip l')[i]? = (l[i]?).bind (fun a => (l'[i]?).map (fun b => (a, b))) := by
  induction l generalizing l' i with
  | nil => simp
  | cons a t ih =>
      cases l' with
      | nil => simp
      | cons b t' =>
          cases i with
          | zero => simp
          | succ j => simpa using ih t' j

theorem capMean_bounds {x : Option ℚ} {m : ℚ} (h : capMean x = some m) :
    0 < m ∧ m ≤ MAX_PLAUSIBLE_PRICE_AVERAGE := by
  rcases x with - | q
  · cases h
  · by_cases hq : q > MAX_PLAUSIBLE_PRICE_AVERAGE ∨ q ≤ 0
    · simp only [capMean, if_pos hq] at h
      cases h
    · simp only [capMean, if_neg hq] at h
      obtain rfl := Option.some.inj h
      push_neg at hq
      exact ⟨hq.2, hq.1⟩

theorem catAvgOf_length (preco : List (Option ℚ)) (tipo : List (Option String)) :
    (catAvgOf preco tipo).length = tipo.length := by
  simp [catAvgOf, catsOf]

theorem lt_length_of_getElem?_eq_some {α : Type} {l : List α} {i : ℕ} {a : α}
    (h : l[i]? = some a) : i < l.length := by
  by_contra hge
  rw [List.getElem?_eq_none (le_of_not_lt hge)] at h
  cases h

theorem devCol_zero_of_price_none {preco : List (Option ℚ)} {tipo : List (Option String)}
    (hlen : preco.length = tipo.length) {i : ℕ} (hp : preco[i]? = some none) :
    (devColOf preco tipo)[i]? = some 0 := by
  have hip : i < preco.length := lt_length_of_getElem?_eq_some hp
  have hia : i < (catAvgOf preco tipo).length := by rw [catAvgOf_length, ← hlen]; exact hip
  obtain ⟨mi, hmi⟩ : ∃ mi, (catAvgOf preco tipo)[i]? = some mi :=
    ⟨_, List.getElem?_eq_getElem hia⟩
  rw [devColOf, List.getElem?_map, getElem?_zip, hp, hmi]
  simp [devOf_none_left]

theorem devCol_zero_of_avg_none {preco : List (Option ℚ)} {tipo : List (Option String)}
    (hlen : preco.length = tipo.length) {i : ℕ} (hm : (catAvgOf preco tipo)[i]? = some none) :
    (devColOf preco tipo)[i]? = some 0 := by
  have hia : i < (catAvgOf preco tipo).length := lt_length_of_getElem?_eq_some hm
  have hip : i < preco.length := by rw [hlen, ← catAvgOf_length preco tipo]; exact hia
  obtain ⟨p, hp⟩ : ∃ p, preco[i]? = some p := ⟨_, List.getElem?_eq_getElem hip⟩
  rw [devColOf, List.getElem?_map, getElem?_zip, hp, hm]
  simp [devOf_none_right]

/-- C6: every stored category mean lies in (0, 5000] or is missing, and a
row whose category mean was capped to missing gets deviation exactly 0,
whatever its own price. -/
theorem C6_category_mean_cap (preco : List (Option ℚ)) (tipo : List (Option String))
    (hlen : preco.length = tipo.length) :
    (∀ x ∈ (create_price_features preco tipo).catAvg, ∀ m : ℚ, x = some m →
      0 < m ∧ m ≤ MAX_PLAUSIBLE_PRICE_AVERAGE) ∧
    (∀ i : ℕ, (create_price_features preco tipo).catAvg[i]? = some none →
      (create_price_features preco tipo).devCol[i]? = some 0) := by
  constructor
  · intro x hx m hm
    subst hm
    simp only [create_price_features, catAvgOf, List.mem_map] at hx
    obtain ⟨c, -, hc⟩ := hx
    exact capMean_bounds hc
  · intro i hi
    exact devCol_zero_of_avg_none hlen hi

/-- C6 witness: a single row with price 6000 yields a category mean of 6000,
which exceeds the 5000 cap, so the stored mean is missing and the row's
deviation is 0. -/
theorem C6_witness :
    (create_price_features [some 6000] [some "X"]).devCol[0]? = some 0 := by
  have hm : (create_price_features [some (6000 : ℚ)] [some "X"]).catAvg[0]? = some none := by
    have hgm : groupMean ([some (6000 : ℚ)].zip (catsOf [some "X"])) "X" = some 6000 := by
      rw [show groupMean ([some (6000 : ℚ)].zip (catsOf [some "X"])) "X" =
        listMean [6000] from rfl]
      norm_num [listMean]
    show (catAvgOf [some (6000 : ℚ)] [some "X"])[0]? = some none
    rw [show catAvgOf [some (6000 : ℚ)] [some "X"] =
      [capMean (groupMean ([some (6000 : ℚ)].zip (catsOf [some "X"])) "X")] from rfl, hgm]
    norm_num [capMean, MAX_PLAUSIBLE_PRICE_AVERAGE]
  exact (C6_category_mean_cap [some 6000] [some "X"] rfl).2 0 hm

/-- C3: the deviation column is total (one finite rational per record, never
missing — it is a `List ℚ` of the full length), and it is exactly 0 whenever
the record's price is missing or its category mean is missing; the zero
divisor of a zero mean cannot occur after the cap, and `devOf` also sends it
to 0 (line 121's replacement of non-finite ratios). -/
theorem C3_deviation_total_and_zero (preco : List (Option ℚ)) (tipo : List (Option String))
    (hlen : preco.length = tipo.length) :
    (create_price_features preco tipo).devCol.length = preco.length ∧
    (∀ i : ℕ, preco[i]? = some none →
      (create_price_features preco tipo).devCol[i]? = some 0) ∧
    (∀ i : ℕ, (create_price_features preco tipo).catAvg[i]? = some none →
      (create_price_features preco tipo).devCol[i]? = some 0) ∧
    (∀ p : Option ℚ, devOf p (some 0) = 0) := by
  refine ⟨?_, fun i hp => devCol_zero_of_price_none hlen hp,
    fun i hm => devCol_zero_of_avg_none hlen hm, ?_⟩
  · show (devColOf preco tipo).length = preco.length
    rw [devColOf, List.length_map, List.length_zip, catAvgOf_length, ← hlen, min_self]
  · intro p
    rcases p with - | q
    · rfl
    · simp [devOf]

/-- C3 witness: a two-row frame whose second price is missing has a
deviation column of full length with 0 in the second row. -/
theorem C3_witness :
    (create_price_features [some 100, none] [some "A", some "A"]).devCol.length = 2 ∧
    (create_price_features [some 100, none] [some "A", some "A"]).devCol[1]? = some 0 := by
  refine ⟨?_, (C3_deviation_total_and_zero [some 100, none] [some "A", some "A"] rfl).2.1 1 rfl⟩
  exact (C3_deviation_total_and_zero [some 100, none] [some "A", some "A"] rfl).1

/-! ### Claim C7: which rows contribute to a category mean -/

/-- The prices that actually contribute to the mean of (post-normalization)
category `c`: the present prices of the rows whose normalized category is
`c`. -/
def contributingPrices (preco : List (Option ℚ)) (tipo : List (Option String))
    (c : String) : List ℚ :=
  ((preco.zip (catsOf tipo)).filter (fun r => r.2 == c)).filterMap Prod.fst

theorem filterMap_fst_filter_isSome (l : List (Option ℚ × String)) :
    (l.filter (fun r => r.1.isSome)).filterMap Prod.fst = l.filterMap Prod.fst := by
  induction l with
  | nil => rfl
  | cons a t ih =>
      rcases a with ⟨p, c⟩
      rcases p with - | q
      · simpa [List.filterMap_cons] using ih
      · simp [List.filter_cons, List.filterMap_cons, ih]

theorem groupMean_eq_contributing (preco : List (Option ℚ)) (tipo : List (Option String))
    (c : String) :
    groupMean (preco.zip (catsOf tipo)) c = listMean (contributingPrices preco tipo c) := by
  rw [groupMean, List.filter_comm, filterMap_fst_filter_isSome, contributingPrices]

/-- C7 counterexample: two rows with missing categories (normalized to the
sentinel) and prices 100 and 200 DO contribute to a mean — the sentinel
category's mean is 150 and both rows get nonzero deviations — contradicting
the claim that records with missing/invalid category contribute to no
category mean (which would leave the sentinel with a null mean and both
deviations at 0). -/
theorem C7_counterexample :
    (create_price_features [some 100, some 200] [none, none]).catAvg =
      [some 150, some 150] ∧
    (create_price_features [some 100, some 200] [none, none]).devCol =
      [-(1/3), 1/3] := by
  have hgm : groupMean ([some (100 : ℚ), some 200].zip (catsOf [none, none]))
      CATEGORIA_SENTINEL = some 150 := by
    rw [show groupMean ([some (100 : ℚ), some 200].zip (catsOf [none, none]))
      CATEGORIA_SENTINEL = listMean [100, 200] from rfl]
    norm_num [listMean]
  have havg : (create_price_features [some 100, some 200] [none, none]).catAvg =
      [some 150, some 150] := by
    show catAvgOf [some 100, some 200] [none, none] = [some 150, some 150]
    rw [show catAvgOf [some 100, some 200] [none, none] =
      [capMean (groupMean ([some (100 : ℚ), some 200].zip (catsOf [none, none]))
        CATEGORIA_SENTINEL),
       capMean (groupMean ([some (100 : ℚ), some 200].zip (catsOf [none, none]))
        CATEGORIA_SENTINEL)] from rfl, hgm]
    norm_num [capMean, MAX_PLAUSIBLE_PRICE_AVERAGE]
  refine ⟨havg, ?_⟩
  show devColOf [some 100, some 200] [none, none] = [-(1/3), 1/3]
  rw [devColOf, show catAvgOf [some 100, some 200] [none, none] =
    (create_price_features [some 100, some 200] [none, none]).catAvg from rfl, havg]
  show [devOf (some 100) (some 150), devOf (some 200) (some 150)] = [-(1/3), 1/3]
  norm_num [devOf]

/-- C7 (amended): every row's stored category mean is the capped arithmetic
mean of the present prices of the rows sharing its post-normalization
category label — the sentinel label for missing/invalid categories forming a
group of its own; rows with missing price contribute to no mean; and a
category all of whose rows have missing (e.g. capped-away) prices gets a
missing mean. -/
theorem C7_mean_partition (preco : List (Option ℚ)) (tipo : List (Option String)) :
    (∀ i : ℕ, (create_price_features preco tipo).catAvg[i]? =
      ((create_price_features preco tipo).cats[i]?).map
        (fun c => capMean (listMean (contributingPrices preco tipo c)))) ∧
    (∀ c : String, contributingPrices preco tipo c = [] →
      ∀ i : ℕ, (create_price_features preco tipo).cats[i]? = some c →
        (create_price_features preco tipo).catAvg[i]? = some none) := by
  have hpart1 : ∀ i : ℕ, (create_price_features preco tipo).catAvg[i]? =
      ((create_price_features preco tipo).cats[i]?).map
        (fun c => capMean (listMean (contributingPrices preco tipo c))) := by
    intro i
    show (catAvgOf preco tipo)[i]? = ((catsOf tipo)[i]?).map _
    rw [catAvgOf, List.getElem?_map]
    rcases h : (catsOf tipo)[i]? with - | c
    · rfl
    · simp [groupMean_eq_contributing preco tipo c]
  refine ⟨hpart1, fun c hc i hci => ?_⟩
  rw [hpart1 i, hci, Option.map_some', hc]
  rfl

/-- C7 witness: a lone row with category "X" and a missing price leaves
category "X" with no contributing prices, hence a missing mean. -/
theorem C7_witness :
    (create_price_features [none] [some "X"]).catAvg[0]? = some none :=
  (C7_mean_partition [none] [some "X"]).2 "X" rfl 0 rfl

/-! ### Claim C8: category text normalization -/

/-- C8 counterexample: the lowercase text "none" is NOT mapped to the
sentinel — the `isin` list of line 77 contains only `''`, `'nan'`, `'None'`,
`'NAN'`, `'NONE'`, so this casing passes through unchanged. -/
theorem C8_counterexample : normCat (some "none") = "none" := by decide

/-- C8 (amended): category normalization trims the text, and maps a cell to
the sentinel exactly when the trimmed text (a missing cell reading as
`"nan"` after `astype(str)`) is one of `''`, `'nan'`, `'None'`, `'NAN'`,
`'NONE'`; any other value — other casings of nan/none such as `'none'` or
`'NaN'` included — passes through trimmed, and no normalized category is the
empty string. -/
theorem C8_category_normalization (c : Option String) :
    (pyStrip (astypeStr c) ∈ badCats → normCat c = CATEGORIA_SENTINEL) ∧
    (pyStrip (astypeStr c) ∉ badCats → normCat c = pyStrip (astypeStr c)) ∧
    normCat c ≠ "" := by
  by_cases h : pyStrip (astypeStr c) ∈ badCats
  · refine ⟨fun _ => ?_, fun h' => absurd h h', ?_⟩
    · rw [normCat, if_pos h]
    · rw [normCat, if_pos h]
      decide
  · refine ⟨fun h' => absurd h' h, fun _ => ?_, ?_⟩
    · rw [normCat, if_neg h]
    · rw [normCat, if_neg h]
      intro he
      exact h (by rw [he]; decide)

/-- C8 witness: a padded "nan" cell trims to "nan" and becomes the sentinel. -/
theorem C8_witness : normCat (some " nan ") = CATEGORIA_SENTINEL :=
  (C8_category_normalization (some " nan ")).1 (by decide)

/-! ### The full pipeline (ETAPA 3, lines 214-220) and claim C9

The `__main__` block applies, in order, `clean_price_column`,
`create_seller_trust_level`, `create_price_features`,
`create_heuristic_label`.  The quality column is coerced to numeric inside
`create_heuristic_label` (lines 134-138); the label map (line 193) then
reads the normalized claim, the deviation, the trust level and the quality
score per row. -/

/-- A pandas quality column, object or numeric dtype (line 135 dispatches). -/
inductive QCol where
  | obj : List (Option String) → QCol
  | num : List (Option ℚ) → QCol

/-- Lines 134-138: a non-numeric quality column goes through
`pd.to_numeric(errors='coerce')`; a numeric one is untouched. -/
def coerceQual : QCol → List (Option ℚ)
  | QCol.obj cells => cells.map (fun c => c.bind (fun t => parseFloatQ t.data))
  | QCol.num cells => cells

/-- The label column (line 193): `apply_rules` row by row over the
normalized claim, the deviation, the trust level and the coerced quality
score. -/
def create_heuristic_label (orig : List (Option String)) (devCol : List ℚ)
    (trust : List ℤ) (notaQ : List (Option ℚ)) : List String :=
  ((orig.map normClaim).zip (devCol.zip (trust.zip notaQ))).map
    (fun r => apply_rules r.1 (some r.2.1) r.2.2.1 r.2.2.2)

/-- The input table: the six base columns the script reads.  The last field
is a `preco_medio_categoria` column possibly left over from a prior run; the
script deletes it at line 95 before recomputing, so `pipeline` never reads
it. -/
structure DFIn where
  preco : PriceCol
  vendedor : List (Option String)
  tipo_cartucho : List (Option String)
  originalidade : List (Option String)
  nota_qualidade : QCol
  preco_medio_categoria : Option (List (Option ℚ))

/-- The output table: base columns as the pipeline leaves them (price
cleaned, category normalized, quality coerced) plus the four derived
columns. -/
structure DFOut where
  preco : List (Option ℚ)
  vendedor : List (Option String)
  tipo_cartucho : List String
  originalidade : List (Option String)
  nota_qualidade : List (Option ℚ)
  seller_trust_level : List ℤ
  preco_medio_categoria : List (Option ℚ)
  desvio_preco_media_categoria : List ℚ
  label_heuristico_calculado : List String

/-- The four-stage pipeline of lines 217-220. -/
def pipeline (df : DFIn) : DFOut :=
  { preco := clean_price_column df.preco
    vendedor := df.vendedor
    tipo_cartucho := catsOf df.tipo_cartucho
    originalidade := df.originalidade
    nota_qualidade := coerceQual df.nota_qualidade
    seller_trust_level := create_seller_trust_level df.vendedor
    preco_medio_categoria := catAvgOf (clean_price_column df.preco) df.tipo_cartucho
    desvio_preco_media_categoria := devColOf (clean_price_column df.preco) df.tipo_cartucho
    label_heuristico_calculado := create_heuristic_label df.originalidade
      (devColOf (clean_price_column df.preco) df.tipo_cartucho)
      (create_seller_trust_level df.vendedor) (coerceQual df.nota_qualidade) }

/-- Strip the derived columns from a pipeline output, keeping the base
columns (now of numeric dtype where cleaned) as the input of a re-run. -/
def stripDerived (o : DFOut) : DFIn :=
  { preco := PriceCol.num o.preco
    vendedor := o.vendedor
    tipo_cartucho := o.tipo_cartucho.map some
    originalidade := o.originalidade
    nota_qualidade := QCol.num o.nota_qualidade
    preco_medio_categoria := none }

/-! #### Idempotence lemmas -/

theorem capIndividual_idem (x : Option ℚ) :
    capIndividual (capIndividual x) = capIndividual x := by
  rcases x with - | q
  · rfl
  · by_cases hq : q > MAX_PLAUSIBLE_PRICE_INDIVIDUAL
    · simp [capIndividual, hq]
    · simp [capIndividual, hq]

theorem clean_price_column_cap_stable (col : PriceCol) :
    (clean_price_column col).map capIndividual = clean_price_column col := by
  rcases col with cells | cells <;>
  · simp only [clean_price_column, List.map_map]
    refine List.map_congr_left fun a _ => ?_
    exact capIndividual_idem _

theorem head?_dropWhile_false {p : Char → Bool} {l : List Char} {c : Char}
    (h : (l.dropWhile p).head? = some c) : p c = false := by
  induction l with
  | nil => cases h
  | cons a t ih =>
      by_cases hp : p a = true
      · rw [List.dropWhile_cons_of_pos hp] at h
        exact ih h
      · rw [List.dropWhile_cons_of_neg hp] at h
        simp only [List.head?_cons, Option.some.injEq] at h
        subst h
        exact Bool.not_eq_true _ |>.mp hp

theorem head?_of_rdropWhile_cons {p : Char → Bool} {m : List Char} {c : Char} {t : List Char}
    (h : m.rdropWhile p = c :: t) : m.head? = some c := by
  obtain ⟨r, hr⟩ : (m.reverse.dropWhile p) <:+ m.reverse := List.dropWhile_suffix p
  have h2 : m.reverse.dropWhile p = (c :: t).reverse := by
    rw [← List.reverse_reverse (m.reverse.dropWhile p)]
    show (m.rdropWhile p).reverse = _
    rw [h]
  rw [h2] at hr
  have h3 : m = ((c :: t) ++ r.reverse) := by
    rw [← List.reverse_reverse m, ← hr]
    simp
  rw [h3]
  rfl

theorem pyStripList_idem (l : List Char) : pyStripList (pyStripList l) = pyStripList l := by
  rcases hs : pyStripList l with - | ⟨c, t⟩
  · rfl
  · have hc : isPySpace c = false := by
      have hr : (l.dropWhile isPySpace).rdropWhile isPySpace = c :: t := hs
      exact head?_dropWhile_false (head?_of_rdropWhile_cons hr)
    show pyStripList (c :: t) = c :: t
    rw [pyStripList, List.dropWhile_cons_of_neg (by simp [hc])]
    calc (c :: t).rdropWhile isPySpace
        = ((l.dropWhile isPySpace).rdropWhile isPySpace).rdropWhile isPySpace := by
          rw [show (l.dropWhile isPySpace).rdropWhile isPySpace = pyStripList l from rfl, hs]
      _ = (l.dropWhile isPySpace).rdropWhile isPySpace :=
          List.rdropWhile_idempotent _ _
      _ = c :: t := hs

theorem pyStrip_idem (s : String) : pyStrip (pyStrip s) = pyStrip s :=
  congrArg String.mk (pyStripList_idem s.data)

theorem normCat_some_normCat (c : Option String) :
    normCat (some (normCat c)) = normCat c := by
  by_cases h : pyStrip (astypeStr c) ∈ badCats
  · simp only [normCat, if_pos h]
    decide
  · simp only [normCat, if_neg h]
    have hx : pyStrip (astypeStr (some (pyStrip (astypeStr c)))) = pyStrip (astypeStr c) :=
      pyStrip_idem _
    rw [hx, if_neg h]

theorem catsOf_restrip (tipo : List (Option String)) :
    catsOf ((catsOf tipo).map some) = catsOf tipo := by
  simp only [catsOf, List.map_map]
  exact List.map_congr_left fun c _ => normCat_some_normCat c

/-- C9: the pipeline is idempotent on its derived columns — running it on
its own output, stripped of the derived columns, reproduces them — and a
pre-existing category-mean column on the input is discarded (line 95) and
recomputed: it has no influence on the output at all. -/
theorem C9_pipeline_idempotent :
    (∀ df : DFIn,
      (pipeline (stripDerived (pipeline df))).seller_trust_level =
        (pipeline df).seller_trust_level ∧
      (pipeline (stripDerived (pipeline df))).preco_medio_categoria =
        (pipeline df).preco_medio_categoria ∧
      (pipeline (stripDerived (pipeline df))).desvio_preco_media_categoria =
        (pipeline df).desvio_preco_media_categoria ∧
      (pipeline (stripDerived (pipeline df))).label_heuristico_calculado =
        (pipeline df).label_heuristico_calculado) ∧
    (∀ (df : DFIn) (pre : Option (List (Option ℚ))),
      pipeline { df with preco_medio_categoria := pre } =
        pipeline { df with preco_medio_categoria := none }) := by
  constructor
  · intro df
    have hpre : clean_price_column (PriceCol.num (clean_price_column df.preco)) =
        clean_price_column df.preco :=
      clean_price_column_cap_stable df.preco
    have hcats := catsOf_restrip df.tipo_cartucho
    have havg : catAvgOf (clean_price_column (PriceCol.num (clean_price_column df.preco)))
        ((catsOf df.tipo_cartucho).map some) =
        catAvgOf (clean_price_column df.preco) df.tipo_cartucho := by
      rw [hpre]
      simp only [catAvgOf]
      rw [hcats]
    have hdev : devColOf (clean_price_column (PriceCol.num (clean_price_column df.preco)))
        ((catsOf df.tipo_cartucho).map some) =
        devColOf (clean_price_column df.preco) df.tipo_cartucho := by
      rw [devColOf, devColOf, havg, hpre]
    refine ⟨rfl, havg, hdev, ?_⟩
    show create_heuristic_label df.originalidade
      (devColOf (clean_price_column (PriceCol.num (clean_price_column df.preco)))
        ((catsOf df.tipo_cartucho).map some))
      (create_seller_trust_level df.vendedor)
      (coerceQual (QCol.num (coerceQual df.nota_qualidade))) = _
    rw [hdev]
    rfl
  · intro df pre
    rfl

end HPApp
